import Mathlib

/-!
Verification development for the dcrseeder address manager (manager.go,
ip.go, decred.go).  The Go code is shallowly embedded: `netip.Addr` is a
pair of an is-4 flag and the numeric value of the address bits, time is
a natural-number clock (`time.Time` zero value is represented by `0`,
`t.Sub(u)` by integer subtraction), the node registry `map[string]*Node`
is an association list keyed by the address+port (Go keys the map by
`AddrPort.String()`, which is injective on valid address+port values,
so the key is kept as the address+port itself).
-/

/-- Model of `netip.Addr`: `is4 = true` is a 4-byte IPv4 address whose
value is `bits < 2^32`; `is4 = false` is a 16-byte IPv6 address (possibly
an IPv4-mapped one) whose value is `bits < 2^128`. -/
structure Addr where
  is4 : Bool
  bits : Nat
deriving DecidableEq

/-- Well-formedness: the bits fit the address family width. -/
def Addr.WF (a : Addr) : Prop :=
  if a.is4 then a.bits < 2 ^ 32 else a.bits < 2 ^ 128

instance (a : Addr) : Decidable a.WF := by
  unfold Addr.WF; infer_instance

/-- `netip.Addr.Is4In6`: a 16-byte address in `::ffff:0:0/96`. -/
def Addr.is4In6 (a : Addr) : Bool :=
  !a.is4 && a.bits / 2 ^ 32 == 0xffff

/-- `netip.Addr.Is6`: reports a 16-byte (IPv6) address, including
IPv4-mapped ones. -/
def Addr.is6 (a : Addr) : Bool :=
  !a.is4

/-- `netip.Addr.Unmap`: strips the IPv4-mapped IPv6 wrapper, if any. -/
def Addr.unmap (a : Addr) : Addr :=
  if a.is4In6 then ⟨true, a.bits % 2 ^ 32⟩ else a

/-- Byte `i` (0-based, from the high end) of the embedded IPv4 value,
as `netip.Addr.v4` reads it for `Is4`/`Is4In6` addresses. -/
def Addr.v4byte (a : Addr) (i : Nat) : Nat :=
  a.bits / 2 ^ ((3 - i) * 8) % 256

/-- Byte `i` (0-based, from the high end) of a 16-byte address, as
`netip.Addr.v6` reads it. -/
def Addr.v6byte (a : Addr) (i : Nat) : Nat :=
  a.bits / 2 ^ ((15 - i) * 8) % 256

/-- `netip.Addr.IsLoopback`: `127.0.0.0/8` for IPv4 (plain or mapped),
and exactly `::1` otherwise. -/
def Addr.isLoopback (a : Addr) : Bool :=
  if a.is4 || a.is4In6 then a.v4byte 0 == 127
  else a.bits == 1

/-- `netip.Addr.IsUnspecified`: exactly `0.0.0.0` or `::`. -/
def Addr.isUnspecified (a : Addr) : Bool :=
  a.bits == 0

/-- `netip.Addr.IsPrivate`: RFC 1918 blocks for IPv4 (plain or mapped),
RFC 4193 `fc00::/7` for IPv6. -/
def Addr.isPrivate (a : Addr) : Bool :=
  if a.is4 || a.is4In6 then
    a.v4byte 0 == 10 ||
    (a.v4byte 0 == 172 && a.v4byte 1 &&& 0xf0 == 16) ||
    (a.v4byte 0 == 192 && a.v4byte 1 == 168)
  else
    a.is6 && a.v6byte 0 &&& 0xfe == 0xfc

/-- Model of `netip.Prefix`: base address and number of leading bits. -/
structure IPNet where
  base : Addr
  ones : Nat

/-- `netip.Prefix.Contains`: false across address families (a 4-byte
prefix never contains a 16-byte address and vice versa), otherwise the
leading `ones` bits must agree. -/
def IPNet.Contains (p : IPNet) (a : Addr) : Bool :=
  if p.base.is4 != a.is4 then false
  else if a.is4 then a.bits >>> (32 - p.ones) == p.base.bits >>> (32 - p.ones)
  else a.bits >>> (128 - p.ones) == p.base.bits >>> (128 - p.ones)

/-- RFC3964: the 6-to-4 relay block `2002::/16` (ip.go). -/
def rfc3964Net : IPNet := ⟨⟨false, 0x20020000000000000000000000000000⟩, 16⟩

/-- RFC4380: the Teredo tunneling block `2001::/32` (ip.go). -/
def rfc4380Net : IPNet := ⟨⟨false, 0x20010000000000000000000000000000⟩, 32⟩

/-- RFC4843: the ORCHID block `2001:10::/28` (ip.go). -/
def rfc4843Net : IPNet := ⟨⟨false, 0x20010010000000000000000000000000⟩, 28⟩

/-- RFC4862: the IPv6 link-local autoconfiguration block `FE80::/64`
(ip.go). -/
def rfc4862Net : IPNet := ⟨⟨false, 0xfe800000000000000000000000000000⟩, 64⟩

/-- RFC6598: the carrier-grade NAT block `100.64.0.0/10` (ip.go). -/
def rfc6598Net : IPNet := ⟨⟨true, 0x64400000⟩, 10⟩

/-- `isRoutable` from ip.go: loopback, unspecified, private and the five
special-use blocks are not routable; everything else is. -/
def isRoutable (addr : Addr) : Bool :=
  if addr.isLoopback then false
  else if addr.isUnspecified then false
  else if addr.isPrivate then false
  else if rfc3964Net.Contains addr || rfc4380Net.Contains addr ||
      rfc4843Net.Contains addr || rfc4862Net.Contains addr ||
      rfc6598Net.Contains addr then false
  else true

/-- Model of `netip.AddrPort`. -/
structure AddrPort where
  addr : Addr
  port : Nat
deriving DecidableEq

/-- `netip.AddrPortFrom(addrPort.Addr().Unmap(), addrPort.Port())` as
used by `AddAddresses`. -/
def AddrPort.unmap (ap : AddrPort) : AddrPort :=
  ⟨ap.addr.unmap, ap.port⟩

/-- `Node` from manager.go.  The four `time.Time` fields are naturals
with `0` standing for the Go zero value ("unset"); `Services` is the
`wire.ServiceFlag` bit mask. -/
structure Node where
  Services : Nat
  LastAttempt : Nat
  FirstSuccess : Nat
  LastSuccess : Nat
  LastSeen : Nat
  ProtocolVersion : Nat
  IP : AddrPort
deriving DecidableEq

/-- `api.Node` from api/addr.go, the element type of a `GoodAddresses`
reply.  `Host` holds the address+port that Go renders with
`node.IP.String()`. -/
structure ApiNode where
  Host : AddrPort
  Services : Nat
  ProtocolVersion : Nat
deriving DecidableEq

/-- The registry `map[string]*Node` as an association list; list order
stands for the (unspecified) map iteration order. -/
def Registry := List (AddrPort × Node)

/-- `time.Time.Sub` on the natural-number clock. -/
def tsub (now t : Nat) : Int :=
  (now : Int) - (t : Int)

/-- `defaultMaxAddresses` from manager.go. -/
def defaultMaxAddresses : Nat := 16

/-- `defaultStaleTimeout` (one hour) from manager.go, in seconds. -/
def defaultStaleTimeout : Int := 3600

/-- `pruneExpireTimeout` (eight hours) from manager.go, in seconds. -/
def pruneExpireTimeout : Int := 28800

/-- Lookup in the registry (`m.nodes[key]`). -/
def lookupNode : List (AddrPort × Node) → AddrPort → Option Node
  | [], _ => none
  | (k, n) :: rest, key => if k = key then some n else lookupNode rest key

/-- In-place update of the entry at `key` (`m.nodes[key].Field = v`);
entries with other keys are untouched, a missing key is a no-op. -/
def updateNode : List (AddrPort × Node) → AddrPort → (Node → Node) →
    List (AddrPort × Node)
  | [], _, _ => []
  | (k, n) :: rest, key, f =>
    if k = key then (k, f n) :: updateNode rest key f
    else (k, n) :: updateNode rest key f

/-- The node freshly inserted by `AddAddresses`: only `IP` and
`LastSeen` are set, everything else is the Go zero value. -/
def newNode (ap : AddrPort) (now : Nat) : Node :=
  { Services := 0, LastAttempt := 0, FirstSuccess := 0, LastSuccess := 0,
    LastSeen := now, ProtocolVersion := 0, IP := ap }

/-- `Manager.AddAddresses` from manager.go: unmap, drop non-routable,
refresh `LastSeen` of known keys, insert new keys with `LastSeen = now`,
and return the new registry with the count of fresh insertions. -/
def addAddresses (nodes : List (AddrPort × Node)) (now : Nat) :
    List AddrPort → List (AddrPort × Node) × Nat
  | [] => (nodes, 0)
  | addrPortT :: rest =>
    -- Never use ipv4-wrapped ipv6 addresses.
    let addrPort := addrPortT.unmap
    if !isRoutable addrPort.addr then
      addAddresses nodes now rest
    else
      match lookupNode nodes addrPort with
      | some _ =>
        addAddresses (updateNode nodes addrPort
          (fun n => { n with LastSeen := now })) now rest
      | none =>
        let r := addAddresses (nodes ++ [(addrPort, newNode addrPort now)]) now rest
        (r.1, r.2 + 1)

/-- The body of the `Manager.Addresses` loop; `i` is the remaining
budget, starting at `defaultMaxAddresses`. -/
def addressesLoop (now : Nat) : List (AddrPort × Node) → Nat → List AddrPort
  | [], _ => []
  | (_, node) :: rest, i =>
    if i = 0 then []
    else if tsub now node.LastSuccess < defaultStaleTimeout ∨
        tsub now node.LastAttempt < defaultStaleTimeout then
      addressesLoop now rest i
    else node.IP :: addressesLoop now rest (i - 1)

/-- `Manager.Addresses` from manager.go: up to 16 addresses whose last
success and last attempt are both at least the stale timeout old. -/
def addresses (nodes : List (AddrPort × Node)) (now : Nat) : List AddrPort :=
  addressesLoop now nodes defaultMaxAddresses

/-- The body of the `Manager.GoodAddresses` loop; `i` is the remaining
budget, starting at `defaultMaxAddresses`. -/
def goodAddressesLoop (now : Nat) (ipversion pver services : Nat) :
    List (AddrPort × Node) → Nat → List ApiNode
  | [], _ => []
  | (_, node) :: rest, i =>
    if i = 0 then []
    -- Skip nodes that aren't known to be stable yet.
    else if node.FirstSuccess = 0 ∨
        tsub now node.FirstSuccess < defaultStaleTimeout then
      goodAddressesLoop now ipversion pver services rest i
    -- Skip nodes that do not seem to be online.
    else if node.LastSuccess = 0 ∨
        tsub now node.LastSuccess ≥ defaultStaleTimeout then
      goodAddressesLoop now ipversion pver services rest i
    -- Filter on ipversion.
    else if ipversion = 4 ∧ ¬node.IP.addr.is4 then
      goodAddressesLoop now ipversion pver services rest i
    else if ipversion = 6 ∧ ¬node.IP.addr.is6 then
      goodAddressesLoop now ipversion pver services rest i
    -- Filter on protocol version.
    else if pver ≠ 0 ∧ node.ProtocolVersion < pver then
      goodAddressesLoop now ipversion pver services rest i
    -- Filter on services.
    else if services ≠ 0 ∧ node.Services &&& services ≠ services then
      goodAddressesLoop now ipversion pver services rest i
    else
      ⟨node.IP, node.Services, node.ProtocolVersion⟩ ::
        goodAddressesLoop now ipversion pver services rest (i - 1)

/-- `Manager.GoodAddresses` from manager.go. -/
def goodAddresses (nodes : List (AddrPort × Node)) (now : Nat)
    (ipversion pver services : Nat) : List ApiNode :=
  goodAddressesLoop now ipversion pver services nodes defaultMaxAddresses

/-- `Manager.Attempt` from manager.go: stamp `LastAttempt` of an
existing entry, no-op otherwise. -/
def attempt (nodes : List (AddrPort × Node)) (addrPort : AddrPort)
    (now : Nat) : List (AddrPort × Node) :=
  updateNode nodes addrPort (fun n => { n with LastAttempt := now })

/-- `Manager.Good` from manager.go: on an existing entry set the
services, protocol version and `LastSuccess`, and set `FirstSuccess`
only when it was unset; no-op otherwise. -/
def good (nodes : List (AddrPort × Node)) (addrPort : AddrPort)
    (services pver : Nat) (now : Nat) : List (AddrPort × Node) :=
  updateNode nodes addrPort (fun n =>
    { n with
      ProtocolVersion := pver
      Services := services
      LastSuccess := now
      FirstSuccess := if n.FirstSuccess = 0 then now else n.FirstSuccess })

/-- `Manager.prunePeers` from manager.go: keep untried nodes, delete
tried nodes whose `LastSeen` or `LastSuccess` is more than the expiry
timeout old. -/
def prunePeers : List (AddrPort × Node) → Nat → List (AddrPort × Node)
  | [], _ => []
  | (k, node) :: rest, now =>
    -- do not remove untried nodes
    if node.LastAttempt = 0 then (k, node) :: prunePeers rest now
    -- node hasn't been seen via getaddr...
    else if tsub now node.LastSeen > pruneExpireTimeout then prunePeers rest now
    -- a successful connection hasn't been made...
    else if tsub now node.LastSuccess > pruneExpireTimeout then prunePeers rest now
    else (k, node) :: prunePeers rest now

/-- A manager call observable from `testPeer` (decred.go); the probe's
effect on the rest of the program is exactly this sequence of calls. -/
inductive MgrEvent where
  | attemptEv (ap : AddrPort)
  | goodEv (ap : AddrPort) (services pver : Nat)
  | addAddrsEv (batch : List AddrPort)
  | queueGetAddrEv
deriving DecidableEq

/-- Outcome of the verack wait in `testPeer`: the verack arrived, the
per-node timeout fired, or the context was cancelled. -/
inductive VerackOutcome where
  | received
  | timedOut
  | cancelled
deriving DecidableEq

/-- Outcome of the address-list wait in `testPeer`: an `addr` message
arrived with a batch, the per-node timeout fired, or the context was
cancelled. -/
inductive AddrOutcome where
  | onAddr (batch : List AddrPort)
  | timedOut
  | cancelled
deriving DecidableEq

/-- `testPeer` from decred.go as a trace of manager calls, parameterised
by the environment's behaviour: whether `NewOutboundPeer` succeeded,
whether the dial succeeded, and the two wait outcomes.  The `Attempt`
call is deferred right after `NewOutboundPeer` succeeds, so it runs
last on every subsequent path; `Good` runs only on a received verack,
and `AddAddresses` only when an address list arrives in time. -/
def testPeer (newOutboundPeerOk dialOk : Bool) (hs : VerackOutcome)
    (aw : AddrOutcome) (ip : AddrPort) (services pver : Nat) :
    List MgrEvent :=
  if !newOutboundPeerOk then []
  else if !dialOk then [.attemptEv ip]
  else
    match hs with
    | .timedOut => [.attemptEv ip]
    | .cancelled => [.attemptEv ip]
    | .received =>
      match aw with
      | .onAddr batch =>
        [.goodEv ip services pver, .queueGetAddrEv, .addAddrsEv batch,
          .attemptEv ip]
      | .timedOut => [.goodEv ip services pver, .queueGetAddrEv, .attemptEv ip]
      | .cancelled => [.goodEv ip services pver, .queueGetAddrEv, .attemptEv ip]

/-- Whether a trace event is an `Attempt` on `ip`. -/
def MgrEvent.isAttemptOn (ip : AddrPort) : MgrEvent → Bool
  | .attemptEv ap => ap = ip
  | _ => false

/-- The IPv4-mapped IPv6 form `::ffff:a.b.c.d` of an IPv4 address+port
(spec side, for the canonicalization claim). -/
def AddrPort.mapped (ap : AddrPort) : AddrPort :=
  ⟨⟨false, 0xffff00000000 + ap.addr.bits⟩, ap.port⟩

/-- Spec side for the routability claim: membership of the address in
the documented non-routable sets, phrased as numeric ranges.  Loopback
and the RFC1918 blocks follow the address's embedded IPv4 value when it
is a plain or a mapped IPv4 address; the five special-use CIDR blocks
contain only addresses of their own family. -/
def nonRoutableSpec (a : Addr) : Prop :=
  -- loopback: 127.0.0.0/8, its mapped form, or ::1
  ((a.is4 = true ∨ a.is4In6 = true) ∧
    0x7f000000 ≤ a.bits % 2 ^ 32 ∧ a.bits % 2 ^ 32 < 0x80000000) ∨
  (a.is4 = false ∧ a.bits = 1) ∨
  -- unspecified: 0.0.0.0 or ::
  a.bits = 0 ∨
  -- private: RFC1918 (10/8, 172.16/12, 192.168/16), plain or mapped
  ((a.is4 = true ∨ a.is4In6 = true) ∧
    ((0x0a000000 ≤ a.bits % 2 ^ 32 ∧ a.bits % 2 ^ 32 < 0x0b000000) ∨
     (0xac100000 ≤ a.bits % 2 ^ 32 ∧ a.bits % 2 ^ 32 < 0xac200000) ∨
     (0xc0a80000 ≤ a.bits % 2 ^ 32 ∧ a.bits % 2 ^ 32 < 0xc0a90000))) ∨
  -- private: RFC4193 unique-local fc00::/7
  (a.is4 = false ∧ 0xfc000000000000000000000000000000 ≤ a.bits ∧
    a.bits < 0xfe000000000000000000000000000000) ∨
  -- 6-to-4 relay 2002::/16
  (a.is4 = false ∧ 0x20020000000000000000000000000000 ≤ a.bits ∧
    a.bits < 0x20030000000000000000000000000000) ∨
  -- Teredo 2001::/32
  (a.is4 = false ∧ 0x20010000000000000000000000000000 ≤ a.bits ∧
    a.bits < 0x20010001000000000000000000000000) ∨
  -- ORCHID 2001:10::/28
  (a.is4 = false ∧ 0x20010010000000000000000000000000 ≤ a.bits ∧
    a.bits < 0x20010020000000000000000000000000) ∨
  -- IPv6 link-local autoconfiguration fe80::/64
  (a.is4 = false ∧ 0xfe800000000000000000000000000000 ≤ a.bits ∧
    a.bits < 0xfe800000000000010000000000000000) ∨
  -- carrier-grade NAT 100.64.0.0/10
  (a.is4 = true ∧ 0x64400000 ≤ a.bits ∧ a.bits < 0x64800000)

instance (a : Addr) : Decidable (nonRoutableSpec a) := by
  unfold nonRoutableSpec; infer_instance

/-- The creation clause of the timestamp-invariant claim, as the spec
states it: a node freshly inserted by `AddAddresses` has all four
timestamps unset. -/
def allTimestampsUnsetAtCreation : Prop :=
  ∀ (nodes : List (AddrPort × Node)) (now : Nat) (batch : List AddrPort)
    (a : AddrPort) (n : Node),
    a ∈ batch →
    lookupNode nodes a.unmap = none →
    lookupNode (addAddresses nodes now batch).1 a.unmap = some n →
    n.LastAttempt = 0 ∧ n.FirstSuccess = 0 ∧ n.LastSuccess = 0 ∧
      n.LastSeen = 0

/-- All four timestamps of a node are at most `now` (the clock never
ran backwards since the node was last written). -/
def TimestampsLE (now : Nat) (n : Node) : Prop :=
  n.LastAttempt ≤ now ∧ n.FirstSuccess ≤ now ∧ n.LastSuccess ≤ now ∧
    n.LastSeen ≤ now

/-- The per-node ordering invariant: `FirstSuccess ≤ LastSuccess`
whenever both are set. -/
def FsLeLs (n : Node) : Prop :=
  n.FirstSuccess ≠ 0 → n.LastSuccess ≠ 0 → n.FirstSuccess ≤ n.LastSuccess

/-- One step of per-node evolution: a set `FirstSuccess` is never
overwritten, and every timestamp, once set, never decreases. -/
def Evolves (n n' : Node) : Prop :=
  (n.FirstSuccess ≠ 0 → n'.FirstSuccess = n.FirstSuccess) ∧
  (n.LastAttempt ≠ 0 → n.LastAttempt ≤ n'.LastAttempt) ∧
  (n.FirstSuccess ≠ 0 → n.FirstSuccess ≤ n'.FirstSuccess) ∧
  (n.LastSuccess ≠ 0 → n.LastSuccess ≤ n'.LastSuccess) ∧
  (n.LastSeen ≠ 0 → n.LastSeen ≤ n'.LastSeen)

/-- Number of registry entries carrying a given key. -/
def countKey (nodes : List (AddrPort × Node)) (k : AddrPort) : Nat :=
  nodes.countP (fun kn => decide (kn.1 = k))

theorem lookupNode_updateNode (nodes : List (AddrPort × Node))
    (key k : AddrPort) (f : Node → Node) :
    lookupNode (updateNode nodes key f) k =
      if k = key then (lookupNode nodes k).map f else lookupNode nodes k := by
  induction nodes with
  | nil => simp [lookupNode, updateNode]
  | cons kn rest ih =>
    obtain ⟨k0, n0⟩ := kn
    by_cases h0 : k0 = key
    · subst h0
      by_cases h1 : k0 = k
      · subst h1
        simp [lookupNode, updateNode]
      · have h1' : ¬(k = k0) := fun h => h1 h.symm
        simp [lookupNode, updateNode, h1, h1', ih]
    · by_cases h1 : k0 = k
      · subst h1
        have h0' : ¬(k0 = key) := h0
        simp [lookupNode, updateNode, h0']
      · simp [lookupNode, updateNode, h0, h1, ih]

theorem lookupNode_append (nodes : List (AddrPort × Node))
    (e : AddrPort × Node) (k : AddrPort) :
    lookupNode (nodes ++ [e]) k =
      match lookupNode nodes k with
      | some n => some n
      | none => if e.1 = k then some e.2 else none := by
  induction nodes with
  | nil => simp [lookupNode]
  | cons kn rest ih =>
    obtain ⟨k0, n0⟩ := kn
    by_cases h : k0 = k
    · simp [lookupNode, h]
    · simp only [List.cons_append, lookupNode, if_neg h]
      exact ih

theorem mem_of_lookupNode (nodes : List (AddrPort × Node))
    (k : AddrPort) (n : Node) (h : lookupNode nodes k = some n) :
    (k, n) ∈ nodes := by
  induction nodes with
  | nil => simp [lookupNode] at h
  | cons kn rest ih =>
    obtain ⟨k0, n0⟩ := kn
    simp only [lookupNode] at h
    by_cases h0 : k0 = k
    · rw [if_pos h0] at h
      subst h0
      cases h
      exact List.mem_cons_self _ _
    · rw [if_neg h0] at h
      exact List.mem_cons_of_mem _ (ih h)

theorem lookupNode_of_mem_nodup (nodes : List (AddrPort × Node))
    (k : AddrPort) (n : Node) (hnd : (nodes.map Prod.fst).Nodup)
    (h : (k, n) ∈ nodes) : lookupNode nodes k = some n := by
  induction nodes with
  | nil => simp at h
  | cons kn rest ih =>
    obtain ⟨k0, n0⟩ := kn
    simp only [List.map_cons, List.nodup_cons] at hnd
    rcases List.mem_cons.mp h with h1 | h1
    · cases h1
      simp [lookupNode]
    · have hk0 : k0 ≠ k := by
        intro he
        exact hnd.1 (he ▸ (List.mem_map.mpr ⟨(k, n), h1, rfl⟩))
      simp only [lookupNode, if_neg hk0]
      exact ih hnd.2 h1

theorem mem_nodup_unique (nodes : List (AddrPort × Node))
    (k : AddrPort) (n1 n2 : Node) (hnd : (nodes.map Prod.fst).Nodup)
    (h1 : (k, n1) ∈ nodes) (h2 : (k, n2) ∈ nodes) : n1 = n2 := by
  have e1 := lookupNode_of_mem_nodup nodes k n1 hnd h1
  have e2 := lookupNode_of_mem_nodup nodes k n2 hnd h2
  rw [e1] at e2
  exact Option.some_injective _ e2

theorem countKey_updateNode (nodes : List (AddrPort × Node))
    (key k : AddrPort) (f : Node → Node) :
    countKey (updateNode nodes key f) k = countKey nodes k := by
  induction nodes with
  | nil => rfl
  | cons kn rest ih =>
    obtain ⟨k0, n0⟩ := kn
    by_cases h0 : k0 = key
    · simp only [countKey, updateNode, List.map_cons, if_pos h0,
        List.countP_cons] at *
      omega
    · simp only [countKey, updateNode, List.map_cons, if_neg h0,
        List.countP_cons] at *
      omega

theorem countKey_append_single (nodes : List (AddrPort × Node))
    (k : AddrPort) (n : Node) :
    countKey (nodes ++ [(k, n)]) k = countKey nodes k + 1 := by
  simp [countKey, List.countP_append, List.countP_cons]

theorem countKey_eq_zero_of_lookup_none (nodes : List (AddrPort × Node))
    (k : AddrPort) (h : lookupNode nodes k = none) : countKey nodes k = 0 := by
  induction nodes with
  | nil => rfl
  | cons kn rest ih =>
    obtain ⟨k0, n0⟩ := kn
    simp only [lookupNode] at h
    by_cases h0 : k0 = k
    · rw [if_pos h0] at h; cases h
    · rw [if_neg h0] at h
      simp only [countKey, List.countP_cons, decide_eq_true_eq] at *
      simp [h0, ih h]

theorem countKey_eq_one_of_lookup_some (nodes : List (AddrPort × Node))
    (k : AddrPort) (n : Node) (hnd : (nodes.map Prod.fst).Nodup)
    (h : lookupNode nodes k = some n) : countKey nodes k = 1 := by
  induction nodes with
  | nil => simp [lookupNode] at h
  | cons kn rest ih =>
    obtain ⟨k0, n0⟩ := kn
    simp only [List.map_cons, List.nodup_cons] at hnd
    simp only [lookupNode] at h
    by_cases h0 : k0 = k
    · rw [if_pos h0] at h
      subst h0
      have hz : lookupNode rest k0 = none := by
        cases hr : lookupNode rest k0 with
        | none => rfl
        | some m =>
          exact absurd (List.mem_map.mpr ⟨(k0, m), mem_of_lookupNode _ _ _ hr, rfl⟩) hnd.1
      have hz' := countKey_eq_zero_of_lookup_none rest k0 hz
      simp only [countKey, List.countP_cons] at hz' ⊢
      simp [hz']
    · rw [if_neg h0] at h
      simp only [countKey, List.countP_cons, decide_eq_true_eq] at *
      simp [h0, ih hnd.2 h]

theorem updateNode_length (nodes : List (AddrPort × Node)) (key : AddrPort)
    (f : Node → Node) : (updateNode nodes key f).length = nodes.length := by
  induction nodes with
  | nil => rfl
  | cons kn rest ih =>
    obtain ⟨k0, n0⟩ := kn
    by_cases h0 : k0 = key
    · simp [updateNode, h0, ih]
    · simp [updateNode, h0, ih]

theorem mem_updateNode (nodes : List (AddrPort × Node)) (key : AddrPort)
    (f : Node → Node) (kn : AddrPort × Node)
    (h : kn ∈ updateNode nodes key f) :
    ∃ n0, (kn.1, n0) ∈ nodes ∧ (kn.2 = n0 ∨ kn.2 = f n0) := by
  induction nodes with
  | nil => simp [updateNode] at h
  | cons kn0 rest ih =>
    obtain ⟨k0, n0⟩ := kn0
    by_cases h0 : k0 = key
    · rw [updateNode, if_pos h0] at h
      rcases List.mem_cons.mp h with h1 | h1
      · subst h1
        exact ⟨n0, List.mem_cons_self _ _, Or.inr rfl⟩
      · obtain ⟨m, hm, hv⟩ := ih h1
        exact ⟨m, List.mem_cons_of_mem _ hm, hv⟩
    · rw [updateNode, if_neg h0] at h
      rcases List.mem_cons.mp h with h1 | h1
      · subst h1
        exact ⟨n0, List.mem_cons_self _ _, Or.inl rfl⟩
      · obtain ⟨m, hm, hv⟩ := ih h1
        exact ⟨m, List.mem_cons_of_mem _ hm, hv⟩

theorem goodAddressesLoop_length (now ipv pv sv : Nat)
    (nodes : List (AddrPort × Node)) :
    ∀ i, (goodAddressesLoop now ipv pv sv nodes i).length ≤ i := by
  induction nodes with
  | nil => intro i; simp [goodAddressesLoop]
  | cons kn rest ih =>
    intro i
    obtain ⟨k, node⟩ := kn
    rw [goodAddressesLoop]
    split_ifs with h0 h1 h2 h3 h4 h5 h6
    · simp
    · exact ih i
    · exact ih i
    · exact ih i
    · exact ih i
    · exact ih i
    · exact ih i
    · have := ih (i - 1)
      simp only [List.length_cons]
      omega

theorem goodAddressesLoop_mem (now ipv pv sv : Nat)
    (nodes : List (AddrPort × Node)) :
    ∀ i g, g ∈ goodAddressesLoop now ipv pv sv nodes i →
    ∃ k n, (k, n) ∈ nodes ∧
      n.FirstSuccess ≠ 0 ∧ defaultStaleTimeout ≤ tsub now n.FirstSuccess ∧
      n.LastSuccess ≠ 0 ∧ tsub now n.LastSuccess < defaultStaleTimeout ∧
      (ipv = 4 → n.IP.addr.is4 = true) ∧
      (ipv = 6 → n.IP.addr.is6 = true) ∧
      (pv ≠ 0 → pv ≤ n.ProtocolVersion) ∧
      (sv ≠ 0 → n.Services &&& sv = sv) ∧
      g = ⟨n.IP, n.Services, n.ProtocolVersion⟩ := by
  induction nodes with
  | nil => intro i g hg; simp [goodAddressesLoop] at hg
  | cons kn rest ih =>
    intro i g hg
    obtain ⟨k, node⟩ := kn
    rw [goodAddressesLoop] at hg
    split_ifs at hg with h0 h1 h2 h3 h4 h5 h6
    · simp at hg
    · obtain ⟨k', n', hm, rest'⟩ := ih i g hg
      exact ⟨k', n', List.mem_cons_of_mem _ hm, rest'⟩
    · obtain ⟨k', n', hm, rest'⟩ := ih i g hg
      exact ⟨k', n', List.mem_cons_of_mem _ hm, rest'⟩
    · obtain ⟨k', n', hm, rest'⟩ := ih i g hg
      exact ⟨k', n', List.mem_cons_of_mem _ hm, rest'⟩
    · obtain ⟨k', n', hm, rest'⟩ := ih i g hg
      exact ⟨k', n', List.mem_cons_of_mem _ hm, rest'⟩
    · obtain ⟨k', n', hm, rest'⟩ := ih i g hg
      exact ⟨k', n', List.mem_cons_of_mem _ hm, rest'⟩
    · obtain ⟨k', n', hm, rest'⟩ := ih i g hg
      exact ⟨k', n', List.mem_cons_of_mem _ hm, rest'⟩
    · rcases List.mem_cons.mp hg with h | h
      · push_neg at h1 h2 h3 h4 h5 h6
        exact ⟨k, node, List.mem_cons_self _ _, h1.1, h1.2, h2.1, h2.2,
          h3, h4, h5, h6, h⟩
      · obtain ⟨k', n', hm, rest'⟩ := ih (i - 1) g h
        exact ⟨k', n', List.mem_cons_of_mem _ hm, rest'⟩

/-- The qualification test of the `Addresses` loop: neither the last
success nor the last attempt is within the stale timeout. -/
def addrQual (now : Nat) (n : Node) : Prop :=
  ¬(tsub now n.LastSuccess < defaultStaleTimeout ∨
    tsub now n.LastAttempt < defaultStaleTimeout)

instance (now : Nat) (n : Node) : Decidable (addrQual now n) := by
  unfold addrQual; infer_instance

theorem addressesLoop_eq (now : Nat) (nodes : List (AddrPort × Node)) :
    ∀ i, addressesLoop now nodes i =
      ((nodes.filter (fun kn => decide (addrQual now kn.2))).take i).map
        (fun kn => kn.2.IP) := by
  induction nodes with
  | nil => intro i; simp [addressesLoop]
  | cons kn rest ih =>
    intro i
    obtain ⟨k, node⟩ := kn
    rw [addressesLoop]
    by_cases hq : tsub now node.LastSuccess < defaultStaleTimeout ∨
        tsub now node.LastAttempt < defaultStaleTimeout
    · have hd : decide (addrQual now node) = false := by
        simp only [decide_eq_false_iff_not, addrQual]
        intro hc
        exact hc hq
      rcases Nat.eq_zero_or_pos i with h0 | h0
      · subst h0
        simp
      · rw [if_neg (by omega), if_pos hq]
        simp only [List.filter_cons, hd, Bool.false_eq_true, if_false]
        exact ih i
    · have hqt : addrQual now node := hq
      have hd : decide (addrQual now node) = true := decide_eq_true hqt
      rcases Nat.eq_zero_or_pos i with h0 | h0
      · subst h0
        simp
      · obtain ⟨j, rfl⟩ : ∃ j, i = j + 1 := ⟨i - 1, by omega⟩
        rw [if_neg (by omega), if_neg hq]
        simp only [List.filter_cons, hd, if_true, Nat.add_sub_cancel,
          List.take_succ_cons, List.map_cons]
        rw [ih j]

theorem addresses_mem (nodes : List (AddrPort × Node)) (now : Nat)
    (ap : AddrPort) (h : ap ∈ addresses nodes now) :
    ∃ k n, (k, n) ∈ nodes ∧ addrQual now n ∧ ap = n.IP := by
  rw [addresses, addressesLoop_eq] at h
  obtain ⟨kn, hkn, hip⟩ := List.mem_map.mp h
  have hf := List.take_subset _ _ hkn
  obtain ⟨hmem, hq⟩ := List.mem_filter.mp hf
  exact ⟨kn.1, kn.2, hmem, of_decide_eq_true hq, hip.symm⟩

/-- The deletion test of one `prunePeers` pass. -/
def pruneDelete (now : Nat) (n : Node) : Prop :=
  n.LastAttempt ≠ 0 ∧ (tsub now n.LastSeen > pruneExpireTimeout ∨
    tsub now n.LastSuccess > pruneExpireTimeout)

instance (now : Nat) (n : Node) : Decidable (pruneDelete now n) := by
  unfold pruneDelete; infer_instance

theorem prunePeers_eq (nodes : List (AddrPort × Node)) (now : Nat) :
    prunePeers nodes now =
      nodes.filter (fun kn => decide (¬pruneDelete now kn.2)) := by
  induction nodes with
  | nil => rfl
  | cons kn rest ih =>
    obtain ⟨k, node⟩ := kn
    rw [prunePeers]
    split_ifs with h0 h1 h2
    · have hd : decide (¬pruneDelete now node) = true := by
        simp only [decide_eq_true_eq, pruneDelete]
        intro hc
        exact hc.1 h0
      simp only [List.filter_cons, hd, if_true]
      rw [ih]
    · have hd : decide (¬pruneDelete now node) = false := by
        simp only [decide_eq_false_iff_not, not_not, pruneDelete]
        exact ⟨h0, Or.inl h1⟩
      simp only [List.filter_cons, hd, Bool.false_eq_true, if_false]
      exact ih
    · have hd : decide (¬pruneDelete now node) = false := by
        simp only [decide_eq_false_iff_not, not_not, pruneDelete]
        exact ⟨h0, Or.inr h2⟩
      simp only [List.filter_cons, hd, Bool.false_eq_true, if_false]
      exact ih
    · have hd : decide (¬pruneDelete now node) = true := by
        simp only [decide_eq_true_eq, pruneDelete]
        intro hc
        rcases hc.2 with hc2 | hc2
        · exact h1 hc2
        · exact h2 hc2
      simp only [List.filter_cons, hd, if_true]
      rw [ih]

theorem mem_prunePeers (nodes : List (AddrPort × Node)) (now : Nat)
    (k : AddrPort) (n : Node) :
    (k, n) ∈ prunePeers nodes now ↔ (k, n) ∈ nodes ∧ ¬pruneDelete now n := by
  rw [prunePeers_eq, List.mem_filter]
  simp

theorem addAddresses_cons_nonroutable (nodes : List (AddrPort × Node))
    (now : Nat) (a : AddrPort) (rest : List AddrPort)
    (hr : isRoutable a.unmap.addr = false) :
    addAddresses nodes now (a :: rest) = addAddresses nodes now rest := by
  rw [addAddresses, hr]
  simp

theorem addAddresses_cons_known (nodes : List (AddrPort × Node))
    (now : Nat) (a : AddrPort) (rest : List AddrPort) (n0 : Node)
    (hr : isRoutable a.unmap.addr = true)
    (hl : lookupNode nodes a.unmap = some n0) :
    addAddresses nodes now (a :: rest) =
      addAddresses (updateNode nodes a.unmap
        (fun n => { n with LastSeen := now })) now rest := by
  rw [addAddresses, hr, hl]
  simp

theorem addAddresses_cons_new (nodes : List (AddrPort × Node))
    (now : Nat) (a : AddrPort) (rest : List AddrPort)
    (hr : isRoutable a.unmap.addr = true)
    (hl : lookupNode nodes a.unmap = none) :
    addAddresses nodes now (a :: rest) =
      ((addAddresses (nodes ++ [(a.unmap, newNode a.unmap now)]) now rest).1,
       (addAddresses (nodes ++ [(a.unmap, newNode a.unmap now)]) now rest).2 + 1) := by
  rw [addAddresses, hr, hl]
  simp

theorem addAddresses_lookup_present (now : Nat) (k : AddrPort) :
    ∀ (batch : List AddrPort) (nodes : List (AddrPort × Node)) (n0 : Node),
    lookupNode nodes k = some n0 →
    lookupNode (addAddresses nodes now batch).1 k = some n0 ∨
      lookupNode (addAddresses nodes now batch).1 k =
        some { n0 with LastSeen := now } := by
  intro batch
  induction batch with
  | nil =>
    intro nodes n0 h
    exact Or.inl h
  | cons a rest ih =>
    intro nodes n0 h
    cases hr : isRoutable a.unmap.addr with
    | false =>
      rw [addAddresses_cons_nonroutable _ _ _ _ hr]
      exact ih nodes n0 h
    | true =>
      cases hl : lookupNode nodes a.unmap with
      | some m =>
        rw [addAddresses_cons_known _ _ _ _ m hr hl]
        by_cases hk : k = a.unmap
        · have h' : lookupNode (updateNode nodes a.unmap
              (fun n => { n with LastSeen := now })) k =
              some { n0 with LastSeen := now } := by
            rw [lookupNode_updateNode, if_pos hk, hk,
              show lookupNode nodes a.unmap = some n0 from hk ▸ h]
            rfl
          rcases ih _ _ h' with h2 | h2
          · exact Or.inr h2
          · right
            rw [h2]
        · have h' : lookupNode (updateNode nodes a.unmap
              (fun n => { n with LastSeen := now })) k = some n0 := by
            rw [lookupNode_updateNode, if_neg hk]
            exact h
          exact ih _ _ h'
      | none =>
        rw [addAddresses_cons_new _ _ _ _ hr hl]
        have h' : lookupNode (nodes ++ [(a.unmap, newNode a.unmap now)]) k =
            some n0 := by
          rw [lookupNode_append, h]
        exact ih _ _ h'

theorem addAddresses_lookup_absent (now : Nat) (k : AddrPort) :
    ∀ (batch : List AddrPort) (nodes : List (AddrPort × Node)),
    lookupNode nodes k = none →
    lookupNode (addAddresses nodes now batch).1 k = none ∨
      lookupNode (addAddresses nodes now batch).1 k = some (newNode k now) := by
  intro batch
  induction batch with
  | nil =>
    intro nodes h
    exact Or.inl h
  | cons a rest ih =>
    intro nodes h
    cases hr : isRoutable a.unmap.addr with
    | false =>
      rw [addAddresses_cons_nonroutable _ _ _ _ hr]
      exact ih nodes h
    | true =>
      cases hl : lookupNode nodes a.unmap with
      | some m =>
        rw [addAddresses_cons_known _ _ _ _ m hr hl]
        have hk : ¬(k = a.unmap) := by
          intro he
          rw [he, hl] at h
          cases h
        have h' : lookupNode (updateNode nodes a.unmap
            (fun n => { n with LastSeen := now })) k = none := by
          rw [lookupNode_updateNode, if_neg hk]
          exact h
        exact ih _ h'
      | none =>
        rw [addAddresses_cons_new _ _ _ _ hr hl]
        by_cases hk : k = a.unmap
        · have h' : lookupNode (nodes ++ [(a.unmap, newNode a.unmap now)]) k =
              some (newNode k now) := by
            rw [lookupNode_append, hk, hl]
            simp
          rcases addAddresses_lookup_present now k rest _ _ h' with h2 | h2
          · exact Or.inr h2
          · right
            rw [h2]
            rfl
        · have h' : lookupNode (nodes ++ [(a.unmap, newNode a.unmap now)]) k =
              none := by
            rw [lookupNode_append, h]
            simp only []
            rw [if_neg (fun he => hk he.symm)]
          exact ih _ h'

theorem addAddresses_lookup_nonroutable (now : Nat) (k : AddrPort)
    (hk : isRoutable k.addr = false) :
    ∀ (batch : List AddrPort) (nodes : List (AddrPort × Node)),
    lookupNode (addAddresses nodes now batch).1 k = lookupNode nodes k := by
  intro batch
  induction batch with
  | nil =>
    intro nodes
    rfl
  | cons a rest ih =>
    intro nodes
    cases hr : isRoutable a.unmap.addr with
    | false =>
      rw [addAddresses_cons_nonroutable _ _ _ _ hr]
      exact ih nodes
    | true =>
      have hne : ¬(k = a.unmap) := by
        intro he
        rw [← he] at hr
        rw [hr] at hk
        cases hk
      cases hl : lookupNode nodes a.unmap with
      | some m =>
        rw [addAddresses_cons_known _ _ _ _ m hr hl]
        rw [ih, lookupNode_updateNode, if_neg hne]
      | none =>
        rw [addAddresses_cons_new _ _ _ _ hr hl]
        have step : lookupNode (nodes ++ [(a.unmap, newNode a.unmap now)]) k =
            lookupNode nodes k := by
          rw [lookupNode_append]
          cases hc : lookupNode nodes k with
          | some m => rfl
          | none =>
            simp only []
            rw [if_neg (fun he => hne he.symm)]
        rw [show lookupNode ((addAddresses (nodes ++ [(a.unmap, newNode a.unmap now)]) now rest).1,
            (addAddresses (nodes ++ [(a.unmap, newNode a.unmap now)]) now rest).2 + 1).1 k =
            lookupNode (addAddresses (nodes ++ [(a.unmap, newNode a.unmap now)]) now rest).1 k from rfl]
        rw [ih, step]

theorem addAddresses_lookup_present_mem (now : Nat) (k : AddrPort)
    (hroutable : isRoutable k.addr = true) :
    ∀ (batch : List AddrPort) (nodes : List (AddrPort × Node)) (n0 : Node),
    lookupNode nodes k = some n0 →
    (∃ a ∈ batch, a.unmap = k) →
    lookupNode (addAddresses nodes now batch).1 k =
      some { n0 with LastSeen := now } := by
  intro batch
  induction batch with
  | nil =>
    intro nodes n0 _ hhit
    obtain ⟨b, hb, _⟩ := hhit
    simp at hb
  | cons a rest ih =>
    intro nodes n0 h hhit
    by_cases ha : a.unmap = k
    · have hr : isRoutable a.unmap.addr = true := by rw [ha]; exact hroutable
      have hl : lookupNode nodes a.unmap = some n0 := by rw [ha]; exact h
      rw [addAddresses_cons_known _ _ _ _ n0 hr hl]
      have h' : lookupNode (updateNode nodes a.unmap
          (fun n => { n with LastSeen := now })) k =
          some { n0 with LastSeen := now } := by
        rw [lookupNode_updateNode, if_pos ha.symm, h]
        rfl
      rcases addAddresses_lookup_present now k rest _ _ h' with h2 | h2
      · exact h2
      · rw [h2]
    · obtain ⟨b, hb, hbk⟩ := hhit
      have hbr : b ∈ rest := by
        rcases List.mem_cons.mp hb with he | he
        · exact absurd (he ▸ hbk) ha
        · exact he
      cases hr : isRoutable a.unmap.addr with
      | false =>
        rw [addAddresses_cons_nonroutable _ _ _ _ hr]
        exact ih nodes n0 h ⟨b, hbr, hbk⟩
      | true =>
        cases hl : lookupNode nodes a.unmap with
        | some m =>
          rw [addAddresses_cons_known _ _ _ _ m hr hl]
          have h' : lookupNode (updateNode nodes a.unmap
              (fun n => { n with LastSeen := now })) k = some n0 := by
            rw [lookupNode_updateNode, if_neg (fun he => ha he.symm)]
            exact h
          exact ih _ n0 h' ⟨b, hbr, hbk⟩
        | none =>
          rw [addAddresses_cons_new _ _ _ _ hr hl]
          have h' : lookupNode (nodes ++ [(a.unmap, newNode a.unmap now)]) k =
              some n0 := by
            rw [lookupNode_append, h]
          exact ih _ n0 h' ⟨b, hbr, hbk⟩

theorem addAddresses_lookup_new_mem (now : Nat) (k : AddrPort)
    (hroutable : isRoutable k.addr = true) :
    ∀ (batch : List AddrPort) (nodes : List (AddrPort × Node)),
    lookupNode nodes k = none →
    (∃ a ∈ batch, a.unmap = k) →
    lookupNode (addAddresses nodes now batch).1 k = some (newNode k now) := by
  intro batch
  induction batch with
  | nil =>
    intro nodes _ hhit
    obtain ⟨b, hb, _⟩ := hhit
    simp at hb
  | cons a rest ih =>
    intro nodes h hhit
    by_cases ha : a.unmap = k
    · have hr : isRoutable a.unmap.addr = true := by rw [ha]; exact hroutable
      have hl : lookupNode nodes a.unmap = none := by rw [ha]; exact h
      rw [addAddresses_cons_new _ _ _ _ hr hl]
      have h' : lookupNode (nodes ++ [(a.unmap, newNode a.unmap now)]) k =
          some (newNode k now) := by
        rw [lookupNode_append, h, ha]
        simp
      rcases addAddresses_lookup_present now k rest _ _ h' with h2 | h2
      · exact h2
      · rw [h2]
        rfl
    · obtain ⟨b, hb, hbk⟩ := hhit
      have hbr : b ∈ rest := by
        rcases List.mem_cons.mp hb with he | he
        · exact absurd (he ▸ hbk) ha
        · exact he
      cases hr : isRoutable a.unmap.addr with
      | false =>
        rw [addAddresses_cons_nonroutable _ _ _ _ hr]
        exact ih nodes h ⟨b, hbr, hbk⟩
      | true =>
        cases hl : lookupNode nodes a.unmap with
        | some m =>
          rw [addAddresses_cons_known _ _ _ _ m hr hl]
          have h' : lookupNode (updateNode nodes a.unmap
              (fun n => { n with LastSeen := now })) k = none := by
            rw [lookupNode_updateNode, if_neg (fun he => ha he.symm)]
            exact h
          exact ih _ h' ⟨b, hbr, hbk⟩
        | none =>
          rw [addAddresses_cons_new _ _ _ _ hr hl]
          have h' : lookupNode (nodes ++ [(a.unmap, newNode a.unmap now)]) k =
              none := by
            rw [lookupNode_append, h]
            simp only []
            rw [if_neg ha]
          exact ih _ h' ⟨b, hbr, hbk⟩

theorem addAddresses_length (now : Nat) :
    ∀ (batch : List AddrPort) (nodes : List (AddrPort × Node)),
    (addAddresses nodes now batch).1.length =
      nodes.length + (addAddresses nodes now batch).2 := by
  intro batch
  induction batch with
  | nil =>
    intro nodes
    rfl
  | cons a rest ih =>
    intro nodes
    cases hr : isRoutable a.unmap.addr with
    | false =>
      rw [addAddresses_cons_nonroutable _ _ _ _ hr]
      exact ih nodes
    | true =>
      cases hl : lookupNode nodes a.unmap with
      | some m =>
        rw [addAddresses_cons_known _ _ _ _ m hr hl]
        rw [ih, updateNode_length]
      | none =>
        rw [addAddresses_cons_new _ _ _ _ hr hl]
        have := ih (nodes ++ [(a.unmap, newNode a.unmap now)])
        simp only [List.length_append, List.length_cons, List.length_nil] at this
        simp only []
        omega

theorem isRoutable_eq_false_iff (a : Addr) :
    isRoutable a = false ↔
      (a.isLoopback = true ∨ a.isUnspecified = true ∨ a.isPrivate = true ∨
       rfc3964Net.Contains a = true ∨ rfc4380Net.Contains a = true ∨
       rfc4843Net.Contains a = true ∨ rfc4862Net.Contains a = true ∨
       rfc6598Net.Contains a = true) := by
  unfold isRoutable
  split_ifs with h1 h2 h3 h4
  · exact iff_of_true rfl (Or.inl h1)
  · exact iff_of_true rfl (Or.inr (Or.inl h2))
  · exact iff_of_true rfl (Or.inr (Or.inr (Or.inl h3)))
  · refine iff_of_true rfl (Or.inr (Or.inr (Or.inr ?_)))
    rw [Bool.or_eq_true, Bool.or_eq_true, Bool.or_eq_true, Bool.or_eq_true] at h4
    rcases h4 with ⟨⟨⟨hc | hc⟩ | hc⟩ | hc⟩ | hc
    · exact Or.inl hc
    · exact Or.inr (Or.inl hc)
    · exact Or.inr (Or.inr (Or.inl hc))
    · exact Or.inr (Or.inr (Or.inr (Or.inl hc)))
    · exact Or.inr (Or.inr (Or.inr (Or.inr hc)))
  · rw [Bool.or_eq_true, Bool.or_eq_true, Bool.or_eq_true, Bool.or_eq_true] at h4
    push_neg at h4
    obtain ⟨⟨⟨⟨c1, c2⟩, c3⟩, c4⟩, c5⟩ := h4
    constructor
    · intro hc
      cases hc
    · intro hc
      rcases hc with hc | hc | hc | hc | hc | hc | hc | hc
      · exact absurd hc h1
      · exact absurd hc h2
      · exact absurd hc h3
      · exact absurd hc c1
      · exact absurd hc c2
      · exact absurd hc c3
      · exact absurd hc c4
      · exact absurd hc c5

set_option maxRecDepth 4096 in
theorem land240 (b : Nat) (hb : b < 256) : (b &&& 0xf0 = 16) ↔ (16 ≤ b ∧ b < 32) := by
  revert hb
  revert b
  decide

set_option maxRecDepth 4096 in
theorem land254 (b : Nat) (hb : b < 256) : (b &&& 0xfe = 0xfc) ↔ (0xfc ≤ b ∧ b < 0xfe) := by
  revert hb
  revert b
  decide

set_option maxRecDepth 8192 in
theorem nonRoutable4 (bits : Nat) (hb : bits < 2 ^ 32) :
    ((Addr.isLoopback ⟨true, bits⟩ = true ∨ Addr.isUnspecified ⟨true, bits⟩ = true ∨
      Addr.isPrivate ⟨true, bits⟩ = true ∨
      rfc3964Net.Contains ⟨true, bits⟩ = true ∨ rfc4380Net.Contains ⟨true, bits⟩ = true ∨
      rfc4843Net.Contains ⟨true, bits⟩ = true ∨ rfc4862Net.Contains ⟨true, bits⟩ = true ∨
      rfc6598Net.Contains ⟨true, bits⟩ = true)) ↔ nonRoutableSpec ⟨true, bits⟩ := by
  have h32 : (2 : Nat) ^ 32 = 4294967296 := by norm_num
  rw [h32] at hb
  have hb1 : bits / 65536 % 256 < 256 := Nat.mod_lt _ (by norm_num)
  simp only [Addr.isLoopback, Addr.isUnspecified, Addr.isPrivate, Addr.is4In6,
    Addr.is6, Addr.v4byte, Addr.v6byte, IPNet.Contains, rfc3964Net, rfc4380Net,
    rfc4843Net, rfc4862Net, rfc6598Net, nonRoutableSpec,
    Nat.shiftRight_eq_div_pow]
  norm_num
  rw [land240 _ hb1]
  omega

set_option maxRecDepth 8192 in
theorem nonRoutable6 (bits : Nat) (hb : bits < 2 ^ 128) :
    ((Addr.isLoopback ⟨false, bits⟩ = true ∨ Addr.isUnspecified ⟨false, bits⟩ = true ∨
      Addr.isPrivate ⟨false, bits⟩ = true ∨
      rfc3964Net.Contains ⟨false, bits⟩ = true ∨ rfc4380Net.Contains ⟨false, bits⟩ = true ∨
      rfc4843Net.Contains ⟨false, bits⟩ = true ∨ rfc4862Net.Contains ⟨false, bits⟩ = true ∨
      rfc6598Net.Contains ⟨false, bits⟩ = true)) ↔ nonRoutableSpec ⟨false, bits⟩ := by
  have h128 : (2 : Nat) ^ 128 = 340282366920938463463374607431768211456 := by norm_num
  rw [h128] at hb
  have hb1 : bits / 65536 % 256 < 256 := Nat.mod_lt _ (by norm_num)
  have hb6 : bits / 1329227995784915872903807060280344576 % 256 < 256 :=
    Nat.mod_lt _ (by norm_num)
  by_cases hm : bits / 4294967296 = 65535
  · simp only [Addr.isLoopback, Addr.isUnspecified, Addr.isPrivate, Addr.is4In6,
      Addr.is6, Addr.v4byte, Addr.v6byte, IPNet.Contains, rfc3964Net, rfc4380Net,
      rfc4843Net, rfc4862Net, rfc6598Net, nonRoutableSpec,
      Nat.shiftRight_eq_div_pow]
    norm_num
    rw [hm]
    norm_num
    rw [land240 _ hb1]
    omega
  · simp only [Addr.isLoopback, Addr.isUnspecified, Addr.isPrivate, Addr.is4In6,
      Addr.is6, Addr.v4byte, Addr.v6byte, IPNet.Contains, rfc3964Net, rfc4380Net,
      rfc4843Net, rfc4862Net, rfc6598Net, nonRoutableSpec,
      Nat.shiftRight_eq_div_pow]
    norm_num [hm]
    rw [land254 _ hb6]
    omega

/-- A routable public IPv4 address+port (8.8.8.8:9108) used as a
concrete test value. -/
def ap0c : AddrPort := ⟨⟨true, 0x08080808⟩, 9108⟩

/-- A second, distinct routable public IPv4 address+port (1.2.3.4:9108)
used as a concrete test value. -/
def ap1c : AddrPort := ⟨⟨true, 0x01020304⟩, 9108⟩

/-- A concrete node that passes every `GoodAddresses` gate at time 4500:
first success at 100 (older than the staleness window), last success at
4000 (within the window). -/
def node1c : Node :=
  { Services := 1, LastAttempt := 0, FirstSuccess := 100, LastSuccess := 4000,
    LastSeen := 4000, ProtocolVersion := 7, IP := ap0c }

/-- Claim C5: `isRoutable` returns false exactly on the documented
non-routable sets — loopback, unspecified, the private-use ranges
(RFC1918 and IPv6 unique-local `fc00::/7`), and the special-use blocks
`2002::/16`, `2001::/32`, `2001:10::/28`, `fe80::/64` and
`100.64.0.0/10` — here phrased as numeric ranges; every other
well-formed address, including the addresses just outside each range
boundary, is routable. -/
theorem claim_C5 (a : Addr) (hwf : a.WF) :
    isRoutable a = false ↔ nonRoutableSpec a := by
  obtain ⟨is4, bits⟩ := a
  rw [isRoutable_eq_false_iff]
  cases is4
  · exact nonRoutable6 bits (by simpa [Addr.WF] using hwf)
  · exact nonRoutable4 bits (by simpa [Addr.WF] using hwf)

/-- Witness for C5: the loopback address 127.0.0.1 is not routable. -/
theorem claim_C5_witness : isRoutable ⟨true, 0x7f000001⟩ = false :=
  (claim_C5 ⟨true, 0x7f000001⟩ (by decide)).mpr (by decide)

/-- Claim C1: every entry of a `GoodAddresses` reply stems from a node
passing all the gates — `FirstSuccess` set and at least the staleness
window old, `LastSuccess` set and younger than the window, the address
family matching `ipversion` when it is 4 or 6, the protocol version at
least `pver` when `pver` is non-zero, and the services a bitwise
superset of `services` when non-zero — and the reply holds at most 16
entries, each of the shape `{Host, Services, ProtocolVersion}`. -/
theorem claim_C1 (nodes : List (AddrPort × Node)) (now ipv pv sv : Nat) :
    (goodAddresses nodes now ipv pv sv).length ≤ 16 ∧
    ∀ g ∈ goodAddresses nodes now ipv pv sv,
      ∃ k n, (k, n) ∈ nodes ∧
        n.FirstSuccess ≠ 0 ∧ defaultStaleTimeout ≤ tsub now n.FirstSuccess ∧
        n.LastSuccess ≠ 0 ∧ tsub now n.LastSuccess < defaultStaleTimeout ∧
        (ipv = 4 → n.IP.addr.is4 = true) ∧
        (ipv = 6 → n.IP.addr.is6 = true) ∧
        (pv ≠ 0 → pv ≤ n.ProtocolVersion) ∧
        (sv ≠ 0 → n.Services &&& sv = sv) ∧
        g = ⟨n.IP, n.Services, n.ProtocolVersion⟩ :=
  ⟨goodAddressesLoop_length now ipv pv sv nodes defaultMaxAddresses,
   fun g hg => goodAddressesLoop_mem now ipv pv sv nodes defaultMaxAddresses g hg⟩

/-- Witness for C1: at time 4500 the registry holding only `node1c`
answers a `GoodAddresses(4, 7, 1)` query with that node, and the gates
hold of it. -/
theorem claim_C1_witness :
    ∃ k n, (k, n) ∈ [(ap0c, node1c)] ∧
      n.FirstSuccess ≠ 0 ∧ defaultStaleTimeout ≤ tsub 4500 n.FirstSuccess ∧
      n.LastSuccess ≠ 0 ∧ tsub 4500 n.LastSuccess < defaultStaleTimeout ∧
      ((4 : Nat) = 4 → n.IP.addr.is4 = true) ∧
      ((4 : Nat) = 6 → n.IP.addr.is6 = true) ∧
      ((7 : Nat) ≠ 0 → 7 ≤ n.ProtocolVersion) ∧
      ((1 : Nat) ≠ 0 → n.Services &&& 1 = 1) ∧
      (⟨ap0c, 1, 7⟩ : ApiNode) = ⟨n.IP, n.Services, n.ProtocolVersion⟩ :=
  (claim_C1 [(ap0c, node1c)] 4500 4 7 1).2 ⟨ap0c, 1, 7⟩ (by decide)

/-- Claim C6: `Addresses` returns at most 16 addresses, its reply is
exactly the first up-to-16 registry nodes whose last success AND last
attempt are both at least the staleness window old (the `addrQual`
filter), and a node with both timestamps unset always qualifies (once
the clock has passed the window, as any real wall clock has). -/
theorem claim_C6 (nodes : List (AddrPort × Node)) (now : Nat) :
    (addresses nodes now).length ≤ 16 ∧
    addresses nodes now =
      ((nodes.filter (fun kn => decide (addrQual now kn.2))).take 16).map
        (fun kn => kn.2.IP) ∧
    (defaultStaleTimeout ≤ (now : Int) →
      ∀ n : Node, n.LastAttempt = 0 → n.LastSuccess = 0 → addrQual now n) := by
  refine ⟨?_, ?_, ?_⟩
  · rw [addresses, addressesLoop_eq]
    simp only [List.length_map, List.length_take]
    exact Nat.min_le_left _ _
  · exact addressesLoop_eq now nodes defaultMaxAddresses
  · intro hnow n hla hls
    have h1 : (3600 : Int) ≤ (now : Int) := hnow
    unfold addrQual
    rw [hla, hls]
    unfold tsub
    intro hc
    rcases hc with hc | hc <;>
    · have h2 : (now : Int) - ((0 : Nat) : Int) < 3600 := hc
      omega

/-- Witness for C6: a freshly inserted node (no attempt, no success)
qualifies for re-probing at time 4000. -/
theorem claim_C6_witness : addrQual 4000 (newNode ap0c 7) :=
  (claim_C6 [] 4000).2.2 (by decide) (newNode ap0c 7) rfl rfl

/-- Claim C7: one pruning pass removes a registry node exactly when its
`LastAttempt` is set and its `LastSeen` or `LastSuccess` age exceeds the
expiry window; a node with `LastAttempt` unset is never removed, and a
tried node with `LastSuccess` unset is always removed once the clock has
passed the expiry window (the unset timestamp reads as a very large
age). -/
theorem claim_C7 (nodes : List (AddrPort × Node)) (now : Nat)
    (k : AddrPort) (n : Node) :
    ((k, n) ∈ nodes →
      ((k, n) ∉ prunePeers nodes now ↔
        n.LastAttempt ≠ 0 ∧ (tsub now n.LastSeen > pruneExpireTimeout ∨
          tsub now n.LastSuccess > pruneExpireTimeout))) ∧
    (n.LastAttempt = 0 → (k, n) ∈ nodes → (k, n) ∈ prunePeers nodes now) ∧
    (pruneExpireTimeout < (now : Int) → n.LastAttempt ≠ 0 →
      n.LastSuccess = 0 → (k, n) ∈ nodes → (k, n) ∉ prunePeers nodes now) := by
  refine ⟨?_, ?_, ?_⟩
  · intro hmem
    rw [mem_prunePeers]
    unfold pruneDelete
    tauto
  · intro hla hmem
    rw [mem_prunePeers]
    exact ⟨hmem, fun hd => hd.1 hla⟩
  · intro hex hla hls hmem
    rw [mem_prunePeers]
    intro hc
    refine hc.2 ⟨hla, Or.inr ?_⟩
    have h1 : (28800 : Int) < (now : Int) := hex
    unfold tsub
    rw [hls]
    have h2 : ((0 : Nat) : Int) = 0 := rfl
    rw [h2]
    unfold pruneExpireTimeout
    omega

/-- A concrete tried-but-never-successful node: attempted at 5, last
seen at 10, no success recorded. -/
def nodeDeadc : Node :=
  { Services := 0, LastAttempt := 5, FirstSuccess := 0, LastSuccess := 0,
    LastSeen := 10, ProtocolVersion := 0, IP := ap0c }

/-- Witness for C7: at time 40000 (past the expiry window) a pruning
pass removes the tried node with `LastSuccess` unset. -/
theorem claim_C7_witness :
    (ap0c, nodeDeadc) ∉ prunePeers [(ap0c, nodeDeadc)] 40000 :=
  (claim_C7 [(ap0c, nodeDeadc)] 40000 ap0c nodeDeadc).2.2 (by decide)
    (by decide) rfl (by decide)

theorem addAddresses_nil (nodes : List (AddrPort × Node)) (now : Nat) :
    addAddresses nodes now [] = (nodes, 0) := rfl

theorem addAddresses_single_then (nodes : List (AddrPort × Node))
    (now now' : Nat) (a b : AddrPort)
    (hab : a.unmap = b.unmap) (hr : isRoutable b.unmap.addr = true)
    (hnd : (nodes.map Prod.fst).Nodup) :
    (addAddresses (addAddresses nodes now [a]).1 now' [b]).2 = 0 ∧
    countKey (addAddresses (addAddresses nodes now [a]).1 now' [b]).1
      b.unmap = 1 := by
  have hra : isRoutable a.unmap.addr = true := by rw [hab]; exact hr
  cases hl : lookupNode nodes a.unmap with
  | some n0 =>
    rw [addAddresses_cons_known nodes now a [] n0 hra hl, addAddresses_nil]
    have hlk : lookupNode (updateNode nodes a.unmap
        (fun n => { n with LastSeen := now })) b.unmap =
        some { n0 with LastSeen := now } := by
      rw [lookupNode_updateNode, if_pos hab.symm, ← hab, hl]
      rfl
    rw [addAddresses_cons_known _ now' b [] _ hr hlk, addAddresses_nil]
    refine ⟨rfl, ?_⟩
    rw [countKey_updateNode, countKey_updateNode]
    exact countKey_eq_one_of_lookup_some nodes b.unmap n0 hnd
      (by rw [← hab]; exact hl)
  | none =>
    rw [addAddresses_cons_new nodes now a [] hra hl, addAddresses_nil]
    have hlk : lookupNode (nodes ++ [(a.unmap, newNode a.unmap now)]) b.unmap =
        some (newNode a.unmap now) := by
      rw [lookupNode_append, ← hab, hl]
      simp
    rw [addAddresses_cons_known _ now' b [] _ hr hlk, addAddresses_nil]
    refine ⟨rfl, ?_⟩
    rw [countKey_updateNode, ← hab, countKey_append_single]
    rw [countKey_eq_zero_of_lookup_none nodes a.unmap hl]

theorem unmap_of_is4 (ap : AddrPort) (h4 : ap.addr.is4 = true) :
    ap.unmap = ap := by
  obtain ⟨⟨is4b, bits⟩, port⟩ := ap
  simp only at h4
  subst h4
  simp [AddrPort.unmap, Addr.unmap, Addr.is4In6]

theorem mapped_unmap (ap : AddrPort) (h4 : ap.addr.is4 = true)
    (hwf : ap.addr.WF) : ap.mapped.unmap = ap := by
  obtain ⟨⟨is4b, bits⟩, port⟩ := ap
  simp only at h4
  subst h4
  have hb : bits < 2 ^ 32 := by simpa [Addr.WF] using hwf
  have h32 : (2 : Nat) ^ 32 = 4294967296 := by norm_num
  rw [h32] at hb
  have hdiv : (0xffff00000000 + bits) / 4294967296 = 65535 := by omega
  have hmod : (0xffff00000000 + bits) % 4294967296 = bits := by omega
  simp [AddrPort.mapped, AddrPort.unmap, Addr.unmap, Addr.is4In6, h32,
    hdiv, hmod]

/-- Claim C3: `AddAddresses` leaves the registry untouched at the key of
every non-routable batch entry; a routable entry already present only
has its `LastSeen` refreshed to `now`; a routable entry not present is
inserted with `LastSeen = now` and services, protocol version and the
three other timestamps unset; and the returned count is exactly the
number of entries the registry grew by. -/
theorem claim_C3 (nodes : List (AddrPort × Node)) (now : Nat)
    (batch : List AddrPort) :
    (∀ a ∈ batch, isRoutable a.unmap.addr = false →
      lookupNode (addAddresses nodes now batch).1 a.unmap =
        lookupNode nodes a.unmap) ∧
    (∀ a ∈ batch, isRoutable a.unmap.addr = true → ∀ n0,
      lookupNode nodes a.unmap = some n0 →
      lookupNode (addAddresses nodes now batch).1 a.unmap =
        some { n0 with LastSeen := now }) ∧
    (∀ a ∈ batch, isRoutable a.unmap.addr = true →
      lookupNode nodes a.unmap = none →
      lookupNode (addAddresses nodes now batch).1 a.unmap =
        some { Services := 0, LastAttempt := 0, FirstSuccess := 0,
               LastSuccess := 0, LastSeen := now, ProtocolVersion := 0,
               IP := a.unmap }) ∧
    (addAddresses nodes now batch).1.length =
      nodes.length + (addAddresses nodes now batch).2 := by
  refine ⟨?_, ?_, ?_, ?_⟩
  · intro a ha hr
    exact addAddresses_lookup_nonroutable now a.unmap hr batch nodes
  · intro a ha hr n0 hl
    exact addAddresses_lookup_present_mem now a.unmap hr batch nodes n0 hl
      ⟨a, ha, rfl⟩
  · intro a ha hr hl
    exact addAddresses_lookup_new_mem now a.unmap hr batch nodes hl
      ⟨a, ha, rfl⟩
  · exact addAddresses_length now batch nodes

/-- Witness for C3: inserting 8.8.8.8:9108 into the empty registry at
time 5 creates the node with `LastSeen = 5` and everything else unset. -/
theorem claim_C3_witness :
    lookupNode (addAddresses [] 5 [ap0c]).1 ap0c.unmap =
      some { Services := 0, LastAttempt := 0, FirstSuccess := 0,
             LastSuccess := 0, LastSeen := 5, ProtocolVersion := 0,
             IP := ap0c.unmap } :=
  (claim_C3 [] 5 [ap0c]).2.2.1 ap0c (by decide) (by decide) rfl

/-- Claim C4: `AddAddresses` is idempotent on membership — adding the
same routable address twice newly inserts 0 entries on the second call
and leaves exactly one entry under its canonical key — and keys are
canonicalized by unmapping, so the IPv4-mapped IPv6 form and the plain
IPv4 form of the same address share one registry entry in either
insertion order. -/
theorem claim_C4 (nodes : List (AddrPort × Node)) (now now' : Nat)
    (a ap4 : AddrPort)
    (hr : isRoutable a.unmap.addr = true)
    (hnd : (nodes.map Prod.fst).Nodup)
    (h4 : ap4.addr.is4 = true) (hwf : ap4.addr.WF)
    (hr4 : isRoutable ap4.addr = true) :
    ((addAddresses (addAddresses nodes now [a]).1 now' [a]).2 = 0 ∧
     countKey (addAddresses (addAddresses nodes now [a]).1 now' [a]).1
       a.unmap = 1) ∧
    ap4.mapped.unmap = ap4 ∧
    ((addAddresses (addAddresses nodes now [ap4.mapped]).1 now' [ap4]).2 = 0 ∧
     countKey (addAddresses (addAddresses nodes now [ap4.mapped]).1 now'
       [ap4]).1 ap4.unmap = 1) ∧
    ((addAddresses (addAddresses nodes now [ap4]).1 now' [ap4.mapped]).2 = 0 ∧
     countKey (addAddresses (addAddresses nodes now [ap4]).1 now'
       [ap4.mapped]).1 ap4.mapped.unmap = 1) := by
  have hu4 : ap4.unmap = ap4 := unmap_of_is4 ap4 h4
  have hmu : ap4.mapped.unmap = ap4 := mapped_unmap ap4 h4 hwf
  have hru : isRoutable ap4.unmap.addr = true := by rw [hu4]; exact hr4
  refine ⟨?_, hmu, ?_, ?_⟩
  · exact addAddresses_single_then nodes now now' a a rfl hr hnd
  · exact addAddresses_single_then nodes now now' ap4.mapped ap4
      (by rw [hmu, hu4]) hru hnd
  · exact addAddresses_single_then nodes now now' ap4 ap4.mapped
      (by rw [hmu, hu4]) (by rw [hmu]; exact hr4) hnd

/-- Witness for C4: adding 8.8.8.8:9108 (once plain, once as
`::ffff:8.8.8.8`) to the empty registry in both orders always leaves a
single entry and a second-call count of 0. -/
theorem claim_C4_witness :
    ((addAddresses (addAddresses [] 3 [ap0c]).1 9 [ap0c]).2 = 0 ∧
     countKey (addAddresses (addAddresses [] 3 [ap0c]).1 9 [ap0c]).1
       ap0c.unmap = 1) ∧
    ap0c.mapped.unmap = ap0c ∧
    ((addAddresses (addAddresses [] 3 [ap0c.mapped]).1 9 [ap0c]).2 = 0 ∧
     countKey (addAddresses (addAddresses [] 3 [ap0c.mapped]).1 9
       [ap0c]).1 ap0c.unmap = 1) ∧
    ((addAddresses (addAddresses [] 3 [ap0c]).1 9 [ap0c.mapped]).2 = 0 ∧
     countKey (addAddresses (addAddresses [] 3 [ap0c]).1 9
       [ap0c.mapped]).1 ap0c.mapped.unmap = 1) :=
  claim_C4 [] 3 9 ap0c ap0c (by decide) (by decide) (by decide) (by decide)
    (by decide)

/-- Counterexample to C2 as stated: a fresh node receives a single
`Good(8.8.8.8:9108, services 1, pver 7)` at t = 1000; at time 4700,
past t plus the staleness window, the claim demands the node appear in
`GoodAddresses`, yet the reply is empty (the same call stamped both
`FirstSuccess` and `LastSuccess`, and the stability gate needs
`FirstSuccess` a full window old while the liveness gate needs
`LastSuccess` younger than the window). -/
theorem claim_C2_counterexample :
    (newNode ap0c 100).FirstSuccess = 0 ∧
    (newNode ap0c 100).LastSuccess = 0 ∧
    (1000 : Int) + defaultStaleTimeout < 4700 ∧
    goodAddresses (good [(ap0c, newNode ap0c 100)] ap0c 1 7 1000)
      4700 0 0 0 = [] := by
  decide

/-- Claim C2 (amended): after a single `Good(addr, s, v)` at time t on a
node with no prior success, `GoodAddresses` does not include addr at ANY
instant — before t plus the staleness window the stability gate
(`FirstSuccess` age below the window) excludes it, and from then on the
liveness gate (`LastSuccess` age at least the window) excludes it; the
address can only appear after a further `Good` call refreshes
`LastSuccess` once `FirstSuccess` is a full window old. -/
theorem claim_C2 (nodes : List (AddrPort × Node)) (ap : AddrPort)
    (s v t now ipv pv sv : Nat)
    (hkey : ∀ kn ∈ nodes, (kn : AddrPort × Node).2.IP = kn.1)
    (hfresh : ∀ kn ∈ nodes, (kn : AddrPort × Node).1 = ap →
      kn.2.FirstSuccess = 0) :
    ap ∉ (goodAddresses (good nodes ap s v t) now ipv pv sv).map
      ApiNode.Host := by
  intro hmem
  obtain ⟨g, hg, hghost⟩ := List.mem_map.mp hmem
  obtain ⟨k, n, hkn, hfs_ne, hfs_age, hls_ne, hls_age, _, _, _, _, hgform⟩ :=
    goodAddressesLoop_mem now ipv pv sv _ defaultMaxAddresses g hg
  obtain ⟨n0, hn0mem, hval⟩ := mem_updateNode nodes ap _ (k, n) hkn
  dsimp only at hn0mem hval
  have hip : n.IP = ap := by
    rw [hgform] at hghost
    exact hghost
  have hk0 : n0.IP = k := hkey (k, n0) hn0mem
  have hnIP : n.IP = n0.IP := by
    rcases hval with h | h <;> rw [h]
  have hkap : k = ap := by
    rw [← hk0, ← hnIP, hip]
  have hfs0 : n0.FirstSuccess = 0 := hfresh (k, n0) hn0mem hkap
  rcases hval with h | h
  · rw [h, hfs0] at hfs_ne
    exact hfs_ne rfl
  · have hfs : n.FirstSuccess = t := by
      rw [h]
      simp [hfs0]
    have hls : n.LastSuccess = t := by rw [h]
    rw [hfs] at hfs_age
    rw [hls] at hls_age
    unfold tsub defaultStaleTimeout at hfs_age hls_age
    omega

/-- Witness for C2 (amended): after the single `Good` at t = 1000 the
address is absent from the reply at time 4700. -/
theorem claim_C2_witness :
    ap0c ∉ (goodAddresses (good [(ap0c, newNode ap0c 100)] ap0c 1 7 1000)
      4700 0 0 0).map ApiNode.Host :=
  claim_C2 [(ap0c, newNode ap0c 100)] ap0c 1 7 1000 4700 0 0 0
    (by decide) (by decide)

/-- Claim C10: no address is simultaneously offered for re-probing by
`Addresses` and advertised by `GoodAddresses` at the same instant: the
former needs `now - LastSuccess` at least the staleness window, the
latter needs it strictly below. -/
theorem claim_C10 (nodes : List (AddrPort × Node)) (now ipv pv sv : Nat)
    (hnd : (nodes.map Prod.fst).Nodup)
    (hkey : ∀ kn ∈ nodes, (kn : AddrPort × Node).2.IP = kn.1) :
    ∀ ap, ap ∈ addresses nodes now →
      ap ∉ (goodAddresses nodes now ipv pv sv).map ApiNode.Host := by
  intro ap hap hmem
  obtain ⟨k1, n1, hm1, hq, hip1⟩ := addresses_mem nodes now ap hap
  obtain ⟨g, hg, hghost⟩ := List.mem_map.mp hmem
  obtain ⟨k2, n2, hm2, _, _, _, hls_age, _, _, _, _, hgform⟩ :=
    goodAddressesLoop_mem now ipv pv sv nodes defaultMaxAddresses g hg
  have hip2 : n2.IP = ap := by
    rw [hgform] at hghost
    exact hghost
  have e1 : n1.IP = k1 := hkey _ hm1
  have e2 : n2.IP = k2 := hkey _ hm2
  have hk : k1 = k2 := by
    rw [← e1, ← e2]
    rw [hip1] at hip2
    exact hip2.symm
  have hn : n1 = n2 := mem_nodup_unique nodes k1 n1 n2 hnd hm1 (hk ▸ hm2)
  unfold addrQual at hq
  push_neg at hq
  have h1 := hq.1
  rw [hn] at h1
  exact absurd hls_age (not_lt.mpr h1)

/-- A concrete never-probed node at a second address, eligible for
re-probing. -/
def nodeStalec : Node :=
  { Services := 0, LastAttempt := 0, FirstSuccess := 0, LastSuccess := 0,
    LastSeen := 100, ProtocolVersion := 0, IP := ap1c }

/-- Witness for C10: at time 4500 the registry holds a good node
(8.8.8.8) and a stale node (1.2.3.4); the stale address is offered by
`Addresses` and absent from the `GoodAddresses` reply. -/
theorem claim_C10_witness :
    ap1c ∉ (goodAddresses [(ap0c, node1c), (ap1c, nodeStalec)]
      4500 0 0 0).map ApiNode.Host :=
  claim_C10 [(ap0c, node1c), (ap1c, nodeStalec)] 4500 0 0 0
    (by decide) (by decide) ap1c (by decide)

/-- Claim C9: every probe path of `testPeer` after `NewOutboundPeer`
succeeded — dial failure, handshake timeout, address-list timeout,
cancellation or full success — records exactly one `Attempt` for the
probed address, as the final manager call of the probe; a failure before
the handshake completes leaves that `Attempt` stamp as the probe's only
manager call (no error reaches the crawl driver: `testPeer` returns
nothing), and an address-list timeout after a successful handshake adds
nothing beyond the handshake's `Good`, the getaddr request and the
`Attempt`. -/
theorem claim_C9 (dialOk : Bool) (hs : VerackOutcome) (aw : AddrOutcome)
    (ip : AddrPort) (s v : Nat) :
    ((testPeer true dialOk hs aw ip s v).countP
        (fun e => e.isAttemptOn ip) = 1) ∧
    ((testPeer true dialOk hs aw ip s v).getLast? =
      some (.attemptEv ip)) ∧
    (dialOk = false ∨ hs = .timedOut ∨ hs = .cancelled →
      testPeer true dialOk hs aw ip s v = [.attemptEv ip]) ∧
    (dialOk = true → hs = .received → aw = .timedOut →
      testPeer true dialOk hs aw ip s v =
        [.goodEv ip s v, .queueGetAddrEv, .attemptEv ip]) := by
  cases dialOk <;> cases hs <;> cases aw <;>
    simp [testPeer, MgrEvent.isAttemptOn]

/-- Witness for C9: the address-list-timeout path records the handshake
`Good`, the getaddr request, and the final `Attempt`. -/
theorem claim_C9_witness :
    testPeer true true .received .timedOut ap0c 1 7 =
      [.goodEv ap0c 1 7, .queueGetAddrEv, .attemptEv ap0c] :=
  (claim_C9 true .received .timedOut ap0c 1 7).2.2.2 rfl rfl rfl

/-- Counterexample to C8 as stated: the claim has all four timestamps
unset at creation, but `AddAddresses` stamps `LastSeen = now` on a
freshly inserted node — inserting 8.8.8.8:9108 at time 5 yields a node
with `LastSeen = 5`. -/
theorem claim_C8_counterexample : ¬allTimestampsUnsetAtCreation := by
  intro h
  have h5 := h [] 5 [ap0c] ap0c (newNode ap0c.unmap 5) (by decide) rfl
    (by decide)
  exact absurd h5.2.2.2 (by decide)

theorem evolves_self (n : Node) : Evolves n n :=
  ⟨fun _ => rfl, fun _ => le_refl _, fun _ => le_refl _, fun _ => le_refl _,
   fun _ => le_refl _⟩

theorem evolves_seen (n : Node) (now : Nat) (h : n.LastSeen ≤ now) :
    Evolves n { n with LastSeen := now } :=
  ⟨fun _ => rfl, fun _ => le_refl _, fun _ => le_refl _, fun _ => le_refl _,
   fun _ => h⟩

theorem evolves_attempt (n : Node) (now : Nat) (h : n.LastAttempt ≤ now) :
    Evolves n { n with LastAttempt := now } :=
  ⟨fun _ => rfl, fun _ => h, fun _ => le_refl _, fun _ => le_refl _,
   fun _ => le_refl _⟩

theorem evolves_good (n : Node) (s v now : Nat) (hls : n.LastSuccess ≤ now) :
    Evolves n { n with
      ProtocolVersion := v
      Services := s
      LastSuccess := now
      FirstSuccess := (if n.FirstSuccess = 0 then now else n.FirstSuccess) } := by
  refine ⟨?_, fun _ => le_refl _, ?_, fun _ => hls, fun _ => le_refl _⟩
  · intro hf
    simp [hf]
  · intro hf
    simp [hf]

theorem fsLeLs_good (n : Node) (s v now : Nat) (hfs : n.FirstSuccess ≤ now) :
    FsLeLs { n with
      ProtocolVersion := v
      Services := s
      LastSuccess := now
      FirstSuccess := (if n.FirstSuccess = 0 then now else n.FirstSuccess) } := by
  intro h1 h2
  by_cases h0 : n.FirstSuccess = 0
  · simp [h0]
  · simp only []
    rw [if_neg h0]
    exact hfs

/-- Claim C8 (amended): every Address Book operation preserves the
per-node invariants — a set `FirstSuccess` is never overwritten,
`FirstSuccess ≤ LastSuccess` whenever both are set, and each timestamp,
once set, never decreases (assuming the clock reading `now` is not
behind any stored timestamp) — and a node freshly inserted by
`AddAddresses` starts with `LastAttempt`, `FirstSuccess` and
`LastSuccess` unset and `LastSeen` equal to the insertion time (not
unset, as the claim stated). -/
theorem claim_C8 (nodes : List (AddrPort × Node)) (now : Nat)
    (k : AddrPort) :
    (∀ (batch : List AddrPort) (n n' : Node),
      lookupNode nodes k = some n → TimestampsLE now n →
      lookupNode (addAddresses nodes now batch).1 k = some n' →
      Evolves n n' ∧ (FsLeLs n → FsLeLs n')) ∧
    (∀ (batch : List AddrPort) (n' : Node),
      lookupNode nodes k = none →
      lookupNode (addAddresses nodes now batch).1 k = some n' →
      n'.LastAttempt = 0 ∧ n'.FirstSuccess = 0 ∧ n'.LastSuccess = 0 ∧
        n'.LastSeen = now) ∧
    (∀ (ap : AddrPort) (n n' : Node),
      lookupNode nodes k = some n → TimestampsLE now n →
      lookupNode (attempt nodes ap now) k = some n' →
      Evolves n n' ∧ (FsLeLs n → FsLeLs n')) ∧
    (∀ (ap : AddrPort) (s v : Nat) (n n' : Node),
      lookupNode nodes k = some n → TimestampsLE now n →
      lookupNode (good nodes ap s v now) k = some n' →
      Evolves n n' ∧ (FsLeLs n → FsLeLs n')) ∧
    ((nodes.map Prod.fst).Nodup → ∀ (n n' : Node),
      lookupNode nodes k = some n →
      lookupNode (prunePeers nodes now) k = some n' → n' = n) := by
  refine ⟨?_, ?_, ?_, ?_, ?_⟩
  · intro batch n n' hl hts hl'
    rcases addAddresses_lookup_present now k batch nodes n hl with h2 | h2 <;>
      rw [hl'] at h2
    · have e : n' = n := Option.some_injective _ h2
      rw [e]
      exact ⟨evolves_self n, fun hf => hf⟩
    · have e : n' = { n with LastSeen := now } := Option.some_injective _ h2
      subst e
      exact ⟨evolves_seen n now hts.2.2.2, fun hf => hf⟩
  · intro batch n' hl hl'
    rcases addAddresses_lookup_absent now k batch nodes hl with h2 | h2 <;>
      rw [hl'] at h2
    · cases h2
    · have e : n' = newNode k now := Option.some_injective _ h2
      subst e
      exact ⟨rfl, rfl, rfl, rfl⟩
  · intro ap n n' hl hts hl'
    unfold attempt at hl'
    rw [lookupNode_updateNode] at hl'
    by_cases hk : k = ap
    · rw [if_pos hk, hl] at hl'
      have e : n' = { n with LastAttempt := now } :=
        Option.some_injective _ hl'.symm
      subst e
      exact ⟨evolves_attempt n now hts.1, fun hf => hf⟩
    · rw [if_neg hk, hl] at hl'
      have e : n' = n := Option.some_injective _ hl'.symm
      rw [e]
      exact ⟨evolves_self n, fun hf => hf⟩
  · intro ap s v n n' hl hts hl'
    unfold good at hl'
    rw [lookupNode_updateNode] at hl'
    by_cases hk : k = ap
    · rw [if_pos hk, hl] at hl'
      have e : n' = { n with
          ProtocolVersion := v
          Services := s
          LastSuccess := now
          FirstSuccess := (if n.FirstSuccess = 0 then now
            else n.FirstSuccess) } :=
        Option.some_injective _ hl'.symm
      subst e
      exact ⟨evolves_good n s v now hts.2.2.1,
        fun _ => fsLeLs_good n s v now hts.2.1⟩
    · rw [if_neg hk, hl] at hl'
      have e : n' = n := Option.some_injective _ hl'.symm
      rw [e]
      exact ⟨evolves_self n, fun hf => hf⟩
  · intro hnd n n' hl hl'
    have hmem' : (k, n') ∈ prunePeers nodes now := mem_of_lookupNode _ _ _ hl'
    have hmem : (k, n') ∈ nodes := ((mem_prunePeers nodes now k n').mp hmem').1
    have hx := lookupNode_of_mem_nodup nodes k n' hnd hmem
    rw [hl] at hx
    exact (Option.some_injective _ hx).symm

instance (now : Nat) (n : Node) : Decidable (TimestampsLE now n) := by
  unfold TimestampsLE
  infer_instance

/-- The node obtained from `node1c` by `Good(8.8.8.8:9108, 3, 9)` at
time 4500: services and protocol version overwritten, `LastSuccess`
refreshed, `FirstSuccess` kept. -/
def nodeAfterGoodc : Node :=
  { Services := 3, LastAttempt := 0, FirstSuccess := 100,
    LastSuccess := 4500, LastSeen := 4000, ProtocolVersion := 9, IP := ap0c }

/-- Witness for C8 (amended): the `Good` call at 4500 on `node1c`
evolves it without overwriting `FirstSuccess` and keeps the ordering
invariant. -/
theorem claim_C8_witness :
    Evolves node1c nodeAfterGoodc ∧ (FsLeLs node1c → FsLeLs nodeAfterGoodc) :=
  (claim_C8 [(ap0c, node1c)] 4500 ap0c).2.2.2.1 ap0c 3 9 node1c
    nodeAfterGoodc (by decide) (by decide) (by decide)
